import Mathlib

/-!
Shallow embedding of the ric-pac-soe game server core (the room/game-state
engine of `server.js`, latest revision).  Boards are total functions
`Nat → Nat → Cell`; both reads and writes are guarded by the same `inBounds`
check the source performs before every access, so out-of-range coordinates are
inert.  Wall-clock fields (`updatedAt`) and the chat log are omitted: no
modelled operation below reads them.  Randomness (`Math.random`) is modelled
by an injected oracle `rand : Nat → Nat` consumed one draw per step.
-/

namespace RicPacSoe

/-- The three piece symbols, `R`/`P`/`S` in the source. -/
inductive Sym where
  | R
  | P
  | S
deriving DecidableEq, Repr

/-- `WEAK_TO` in the source: maps a defender's symbol to the attacker symbol
that beats it (`{ S: 'R', P: 'S', R: 'P' }`). -/
def weakTo : Sym → Sym
  | .S => .R
  | .P => .S
  | .R => .P

/-- One board cell: `null`, `{type:'BLOCKER'}` or `{player, sym}` in the source. -/
inductive Cell where
  | empty
  | blocker
  | piece (player : Nat) (sym : Sym)
deriving DecidableEq, Repr

/-- `BOARD_SIZE = 8`. -/
def boardSize : Int := 8

/-- A board is an 8×8 grid; cells outside the grid are never read or written
(every access in the source is behind `inBounds`). -/
def Board := Nat → Nat → Cell

/-- `inBounds(r, c)` from the source. -/
def inBounds (r c : Int) : Bool :=
  decide (0 ≤ r) && decide (r < boardSize) && decide (0 ≤ c) && decide (c < boardSize)

/-- `board[r][c]` read, guarded by the `inBounds` check that precedes every
read in the source. -/
def getCell (b : Board) (r c : Int) : Cell :=
  if inBounds r c then b r.toNat c.toNat else Cell.empty

/-- `board[r][c] = v` write; every write in the source happens at a
coordinate already known to be in bounds, so the guard is inert there. -/
def setCell (b : Board) (r c : Int) (v : Cell) : Board :=
  if inBounds r c then
    fun x y => if x = r.toNat ∧ y = c.toNat then v else b x y
  else b

/-- `createEmptyBoard()`. -/
def createEmptyBoard : Board := fun _ _ => Cell.empty

/-- `sameOwnerSym(board, r, c, ref)`: the cell is a non-blocker piece with the
reference owner and symbol. -/
def sameOwnerSym (b : Board) (r c : Int) (pl : Nat) (sy : Sym) : Bool :=
  match getCell b r c with
  | .piece p s => decide (p = pl) && decide (s = sy)
  | _ => false

/-- `boardFull(board)`. -/
def boardFull (b : Board) : Bool :=
  (List.range 8).all fun r =>
    (List.range 8).all fun c => !decide (getCell b (r : Int) (c : Int) = Cell.empty)

/-- The four line directions `deltas` shared by the rule evaluator. -/
def deltas : List (Int × Int) := [(0, 1), (1, 0), (1, 1), (1, -1)]

/-- One `while (inBounds(...) && sameOwnerSym(...))` extension loop, walking
from `(r, c)` in steps of `(dr, dc)`.  The fuel `8` is the board side: a ray
meets at most 8 in-bounds cells, after which `inBounds` fails and the source
loop stops, so fuel 8 never truncates. -/
def extendRun (b : Board) (pl : Nat) (sy : Sym) : Nat → Int → Int → Int → Int → List (Int × Int)
  | 0, _, _, _, _ => []
  | n + 1, r, c, dr, dc =>
    if inBounds r c && sameOwnerSym b r c pl sy then
      (r, c) :: extendRun b pl sy n (r + dr) (c + dc) dr dc
    else []

/-- The maximal contiguous same-owner-same-symbol run through `(r, c)` along
`(dr, dc)`: the backward `unshift` loop, the seed `[{r, c}]`, and the forward
`push` loop of the source, in source order. -/
def lineThrough (b : Board) (pl : Nat) (sy : Sym) (r c dr dc : Int) : List (Int × Int) :=
  (extendRun b pl sy 8 (r - dr) (c - dc) (-dr) (-dc)).reverse
    ++ (r, c) :: extendRun b pl sy 8 (r + dr) (c + dc) dr dc

/-- A transient highlight entry `{cells, by}`. -/
structure Highlight where
  cells : List (Int × Int)
  byIdx : Nat
deriving DecidableEq, Repr

/-- Accumulated output of the elimination pass. -/
structure ElimOut where
  removed : Nat
  board : Board
  highlights : List Highlight

/-- `tryEliminate(rr, cc)` inside `resolveEliminationsFrom`: removes the cell
when it is in bounds, a non-blocker piece of a different owner, and its symbol
is beaten by the placed symbol. -/
def tryEliminate (b : Board) (rr cc : Int) (attPl : Nat) (attSy : Sym) (byIdx : Nat) : ElimOut :=
  if !inBounds rr cc then ⟨0, b, []⟩
  else
    match getCell b rr cc with
    | .empty => ⟨0, b, []⟩
    | .blocker => ⟨0, b, []⟩
    | .piece p s =>
      if p = attPl then ⟨0, b, []⟩
      else if weakTo s = attSy then
        ⟨1, setCell b rr cc Cell.empty, [⟨[(rr, cc)], byIdx⟩]⟩
      else ⟨0, b, []⟩

/-- The pair scan of `resolveEliminationsFrom`: walk consecutive pairs of the
run; at the first pair containing the new piece, try to eliminate just before
the pair's first cell and just after its second cell, then `break`. -/
def elimPairs (b : Board) (pl : Nat) (sy : Sym) (r c dr dc : Int) (byIdx : Nat) :
    List (Int × Int) → ElimOut
  | [] => ⟨0, b, []⟩
  | [_] => ⟨0, b, []⟩
  | a :: bb :: rest =>
    if (decide (a.1 = r) && decide (a.2 = c)) || (decide (bb.1 = r) && decide (bb.2 = c)) then
      let e1 := tryEliminate b (a.1 - dr) (a.2 - dc) pl sy byIdx
      let e2 := tryEliminate e1.board (bb.1 + dr) (bb.2 + dc) pl sy byIdx
      ⟨e1.removed + e2.removed, e2.board, e1.highlights ++ e2.highlights⟩
    else elimPairs b pl sy r c dr dc byIdx (bb :: rest)

/-- `resolveEliminationsFrom(board, r, c, byPlayerIdx)`: per direction, build
the run through `(r, c)` on the current board and run the pair scan; board
mutations carry over to later directions exactly as in the source. -/
def elimStep (pl : Nat) (sy : Sym) (r c : Int) (byIdx : Nat) (acc : ElimOut)
    (d : Int × Int) : ElimOut :=
  let line := lineThrough acc.board pl sy r c d.1 d.2
  let out := elimPairs acc.board pl sy r c d.1 d.2 byIdx line
  ⟨acc.removed + out.removed, out.board, acc.highlights ++ out.highlights⟩

def resolveEliminationsFrom (b : Board) (r c : Int) (byIdx : Nat) : ElimOut :=
  match getCell b r c with
  | .empty => ⟨0, b, []⟩
  | .blocker => ⟨0, b, []⟩
  | .piece pl sy => deltas.foldl (elimStep pl sy r c byIdx) ⟨0, b, []⟩

/-- `scoreThreeInRow(board, r, c, byPlayerIdx)`: +1 per direction whose run
through `(r, c)` has length ≥ 3, with a 3-cell highlight window around the
new piece (`start = max(0, min(idx - 1, len - 3))`).  Both source while-loops
extend exactly while the next cell is an in-bounds matching piece, which is
`lineThrough`. -/
def triStep (b : Board) (pl : Nat) (sy : Sym) (r c : Int) (byIdx : Nat)
    (acc : Nat × List Highlight) (d : Int × Int) : Nat × List Highlight :=
  let seg := lineThrough b pl sy r c d.1 d.2
  if 3 ≤ seg.length then
    let idx : Int := (seg.findIdx fun p => decide (p.1 = r) && decide (p.2 = c) : Nat)
    let len : Int := (seg.length : Nat)
    let start := (max 0 (min (idx - 1) (len - 3))).toNat
    let triple := [seg.getD start (0, 0), seg.getD (start + 1) (0, 0),
      seg.getD (start + 2) (0, 0)]
    (acc.1 + 1, acc.2 ++ [⟨triple, byIdx⟩])
  else acc

def scoreThreeInRow (b : Board) (r c : Int) (byIdx : Nat) : Nat × List Highlight :=
  match getCell b r c with
  | .empty => (0, [])
  | .blocker => (0, [])
  | .piece pl sy => deltas.foldl (triStep b pl sy r c byIdx) (0, [])

/-- The tile-collection loop of a misplacement window: all three positions
must be in bounds and hold a non-blocker piece, else the window is skipped. -/
def tilesOf (b : Board) : List (Int × Int) → Option (List ((Int × Int) × Nat × Sym))
  | [] => some []
  | pos :: rest =>
    if !inBounds pos.1 pos.2 then none
    else
      match getCell b pos.1 pos.2 with
      | .piece p s => (tilesOf b rest).map fun ts => (pos, p, s) :: ts
      | _ => none

/-- One misplacement window check of `scoreMisplacement`: the window must
contain `(r, c)`, the two other tiles must both carry the symbol beating the
placed one, belong to someone other than the placer, and share one owner; on
success that owner is returned. -/
def windowAward (b : Board) (r c : Int) (pl : Nat) (strong : Sym)
    (win : List (Int × Int)) : Option Nat :=
  match tilesOf b win with
  | none => none
  | some tiles =>
    if !(tiles.any fun t => decide (t.1.1 = r) && decide (t.1.2 = c)) then none
    else
      let others := tiles.filter fun t => !(decide (t.1.1 = r) && decide (t.1.2 = c))
      if !decide (others.length = 2) then none
      else
        let bothStronger := (others.all fun t => decide (t.2.2 = strong))
          && (others.all fun t => !decide (t.2.1 = pl))
        let sameOpponentOwner := bothStronger
          && decide ((others.getD 0 ((0, 0), 0, Sym.R)).2.1
            = (others.getD 1 ((0, 0), 0, Sym.R)).2.1)
        if bothStronger && sameOpponentOwner then
          some (others.getD 0 ((0, 0), 0, Sym.R)).2.1
        else none

/-- The three length-3 windows of a direction, in source order: ending at,
centered at, starting at `(r, c)`. -/
def windowsAt (r c dr dc : Int) : List (List (Int × Int)) :=
  [[(r - 2 * dr, c - 2 * dc), (r - dr, c - dc), (r, c)],
   [(r - dr, c - dc), (r, c), (r + dr, c + dc)],
   [(r, c), (r + dr, c + dc), (r + 2 * dr, c + 2 * dc)]]

/-- The `directionAwarded` loop: the first qualifying window of the list wins
and later windows are not checked. -/
def firstWindowAward (b : Board) (r c : Int) (pl : Nat) (strong : Sym) :
    List (List (Int × Int)) → Option (Nat × List (Int × Int))
  | [] => none
  | win :: rest =>
    match windowAward b r c pl strong win with
    | some opp => some (opp, win)
    | none => firstWindowAward b r c pl strong rest

/-- `scoreMisplacement(board, r, c)`: per direction, at most one award of one
point to the single opponent owning both flanking stronger tiles. -/
def misStep (b : Board) (r c : Int) (pl : Nat) (strong : Sym)
    (acc : List (Nat × Nat) × List Highlight) (d : Int × Int) :
    List (Nat × Nat) × List Highlight :=
  match firstWindowAward b r c pl strong (windowsAt r c d.1 d.2) with
  | some (opp, win) => (acc.1 ++ [(opp, 1)], acc.2 ++ [⟨win, opp⟩])
  | none => acc

def scoreMisplacement (b : Board) (r c : Int) : List (Nat × Nat) × List Highlight :=
  match getCell b r c with
  | .empty => ([], [])
  | .blocker => ([], [])
  | .piece pl sy => deltas.foldl (misStep b r c pl (weakTo sy)) ([], [])

/-- Per-player remaining stock `{R, P, S}`. -/
structure Stock where
  r : Nat
  p : Nat
  s : Nat
deriving DecidableEq, Repr

/-- Read `stock[sym]`. -/
def Stock.get (st : Stock) : Sym → Nat
  | .R => st.r
  | .P => st.p
  | .S => st.s

/-- `stock[sym]--` (the guard in `placePiece` ensures the count is positive). -/
def Stock.dec (st : Stock) : Sym → Stock
  | .R => { st with r := st.r - 1 }
  | .P => { st with p := st.p - 1 }
  | .S => { st with s := st.s - 1 }

/-- `st.R + st.P + st.S`. -/
def Stock.total (st : Stock) : Nat := st.r + st.p + st.s

def defaultStock : Stock := ⟨0, 0, 0⟩

/-- A seated player or spectator `{socketId, name}`. -/
structure PlayerSlot where
  sid : Nat
  name : String
deriving DecidableEq, Repr

/-- Room settings `{tilesPerSymbol, blockers, pointsToWin}`. -/
structure Settings where
  tilesPerSymbol : Nat
  blockers : Nat
  pointsToWin : Nat
deriving DecidableEq, Repr

/-- A game room.  `updatedAt` (wall clock) and `chat` are omitted: nothing
modelled below reads them. -/
structure Room where
  settings : Settings
  players : List PlayerSlot
  spectators : List PlayerSlot
  turn : Nat
  lastPlayed : List (Nat × Sym)
  scores : List Nat
  stock : List Stock
  board : Board
  gameOver : Bool
  message : String
  started : Bool
  highlights : List Highlight

/-- JS `Array.prototype.findIndex`, with `none` for `-1`. -/
def jsFindIndex {A : Type} (p : A → Bool) : List A → Option Nat
  | [] => none
  | x :: xs => if p x then some 0 else (jsFindIndex p xs).map (· + 1)

/-- `room.players.findIndex(p => p.socketId === socket.id)`, as an option. -/
def findSeat (room : Room) (sid : Nat) : Option Nat :=
  jsFindIndex (fun p => decide (p.sid = sid)) room.players

/-- The default label `P${i+1}`. -/
def mkLabel (i : Nat) : String :=
  let k := i + 1
  s!"P{k}"

/-- `evaluateWinners(scores)`: every index whose score equals the maximum,
as `{index, label, score}` triples.  `Math.max(...scores)` over the (always
nonempty) score vector is the fold below. -/
def evaluateWinners (scores : List Nat) : List (Nat × String × Nat) :=
  let m := scores.foldr Nat.max 0
  (List.range scores.length).filterMap fun i =>
    if scores.getD i 0 = m then some (i, mkLabel i, scores.getD i 0) else none

/-- `room.players[i].name || 'P' + (i+1)` (the empty name is falsy). -/
def playerLabel (room : Room) (i : Nat) : String :=
  let nm := (room.players.getD i ⟨0, ("")⟩).name
  if nm = ("") then mkLabel i else nm

def winByPointsMsg (nm : String) (pts : Nat) : String :=
  s!"{nm} wins by reaching {pts} points!"

/-- The game-over message of the used-all-tiles branch. -/
def tilesOutMsg (nm : String) (winners : List (Nat × String × Nat)) : String :=
  if winners.length = 1 then
    let lb := (winners.getD 0 (0, mkLabel 0, 0)).2.1
    let sc := (winners.getD 0 (0, mkLabel 0, 0)).2.2
    s!"Game over — {nm} used all tiles. {lb} wins with {sc} points!"
  else
    let joined := String.intercalate (", ") (winners.map fun w => w.2.1)
    let sc := (winners.getD 0 (0, mkLabel 0, 0)).2.2
    s!"Game over — {nm} used all tiles. Tie between {joined} (score {sc})."

/-- The game-over message of the board-full branch. -/
def boardFullMsg (winners : List (Nat × String × Nat)) : String :=
  if winners.length = 1 then
    let lb := (winners.getD 0 (0, mkLabel 0, 0)).2.1
    let sc := (winners.getD 0 (0, mkLabel 0, 0)).2.2
    s!"{lb} wins with {sc} points (board full)."
  else
    let joined := String.intercalate (", ") (winners.map fun w => w.2.1)
    let sc := (winners.getD 0 (0, mkLabel 0, 0)).2.2
    s!"Board full. Tie between {joined} (score {sc})."

/-- `room.scores[i] = (room.scores[i] ?? 0) + pts`.  An out-of-range index
would create a sparse JS array whose holes read back as `undefined` (then
`?? 0`); those holes are modelled as zeros.  Every award in a well-formed
room is in range, where this is exact. -/
def addScore (sc : List Nat) (i : Nat) (pts : Nat) : List Nat :=
  if i < sc.length then sc.set i (sc.getD i 0 + pts)
  else (sc ++ List.replicate (i + 1 - sc.length) 0).set i pts

/-- `room.lastPlayed[k] = v` on the object used as a map. -/
def setLastPlayed (lp : List (Nat × Sym)) (k : Nat) (v : Sym) : List (Nat × Sym) :=
  if lp.any fun kv => decide (kv.1 = k) then
    lp.map fun kv => if kv.1 = k then (k, v) else kv
  else lp ++ [(k, v)]

/-- The end-of-stock scan of `placePiece`: the first player index whose
remaining stock (missing entries default to zeros) sums to 0. -/
def firstOutOfStock (stock : List Stock) (n : Nat) : Option Nat :=
  (List.range n).find? fun i => decide ((stock.getD i defaultStock).total = 0)

/-- The state produced by the scoring phases of a successful placement,
before the terminal checks. -/
structure MoveEval where
  board : Board
  scores : List Nat
  stock : List Stock
  lastPlayed : List (Nat × Sym)
  highlights : List Highlight

/-- The mutation-and-scoring part of `placePiece`: place the piece, decrement
stock, record `lastPlayed`, reset highlights, then misplacement, elimination,
and three-in-a-row in source order. -/
def evalMove (room : Room) (playerIdx : Nat) (sy : Sym) (r c : Int) : MoveEval :=
  let b1 := setCell room.board r c (Cell.piece playerIdx sy)
  let stock1 := room.stock.set playerIdx ((room.stock.getD playerIdx defaultStock).dec sy)
  let lp1 := setLastPlayed room.lastPlayed playerIdx sy
  let mis := scoreMisplacement b1 r c
  let scores1 := mis.1.foldl (fun sc a => addScore sc a.1 a.2) room.scores
  let hl1 := mis.2
  let elim := resolveEliminationsFrom b1 r c playerIdx
  let scores2 := if 0 < elim.removed then addScore scores1 playerIdx elim.removed else scores1
  let hl2 := if 0 < elim.removed then hl1 ++ elim.highlights else hl1
  let tri := scoreThreeInRow elim.board r c playerIdx
  let scores3 := if 0 < tri.1 then addScore scores2 playerIdx tri.1 else scores2
  let hl3 := if 0 < tri.1 then hl2 ++ tri.2 else hl2
  ⟨elim.board, scores3, stock1, lp1, hl3⟩

/-- The tail of a successful `placePiece`: apply the scoring phases, then the
terminal checks in source order — win by points, first player out of tiles,
board full, otherwise advance the turn.  Terminal branches return before the
turn update, so the turn is unchanged there. -/
def placeFinish (room : Room) (playerIdx : Nat) (sy : Sym) (r c : Int) : Room :=
  let E := evalMove room playerIdx sy r c
  let base : Room := { room with
    board := E.board
    stock := E.stock
    lastPlayed := E.lastPlayed
    scores := E.scores
    highlights := E.highlights }
  if room.settings.pointsToWin ≤ E.scores.getD playerIdx 0 then
    { base with
      gameOver := true
      message := winByPointsMsg (playerLabel room playerIdx) room.settings.pointsToWin }
  else
    match firstOutOfStock E.stock room.players.length with
    | some i =>
      { base with
        gameOver := true
        message := tilesOutMsg (playerLabel room i) (evaluateWinners E.scores) }
    | none =>
      if boardFull E.board then
        { base with
          gameOver := true
          message := boardFullMsg (evaluateWinners E.scores) }
      else
        { base with turn := (room.turn + 1) % room.players.length }

/-- The `placePiece` handler: the guard chain, the scoring phases and the
terminal checks, in source order.  `symIn = none` models a payload symbol
that is not one of `'R'/'P'/'S'`. -/
def placePiece (room : Room) (sid : Nat) (r c : Int) (symIn : Option Sym) : Room :=
  if room.gameOver then room
  else
    match findSeat room sid with
    | none => room
    | some playerIdx =>
      if !decide (playerIdx = room.turn) then room
      else
        match symIn with
        | none => room
        | some sy =>
          if !inBounds r c then room
          else if !decide (getCell room.board r c = Cell.empty) then room
          else if (room.stock.getD playerIdx defaultStock).get sy = 0 then room
          else placeFinish room playerIdx sy r c

/-- The step-size rejection of `moveBlocker`: with `dr`/`dc` the absolute
coordinate differences, the source rejects `(dr === 0 && dc === 0) || dr > 1
|| dc > 1` — everything except Chebyshev distance exactly 1. -/
def chebRejected (fr fc tr tc : Int) : Bool :=
  (decide ((fr - tr).natAbs = 0) && decide ((fc - tc).natAbs = 0))
    || decide (1 < (fr - tr).natAbs) || decide (1 < (fc - tc).natAbs)

/-- The `moveBlocker` handler. -/
def moveBlocker (room : Room) (sid : Nat) (fr fc tr tc : Int) : Room :=
  if room.gameOver then room
  else
    match findSeat room sid with
    | none => room
    | some playerIdx =>
      if !decide (playerIdx = room.turn) then room
      else if !(inBounds fr fc && inBounds tr tc) then room
      else
        match getCell room.board fr fc with
        | .blocker =>
          if !decide (getCell room.board tr tc = Cell.empty) then room
          else if chebRejected fr fc tr tc then room
          else
            { room with
              board := setCell (setCell room.board tr tc Cell.blocker) fr fc Cell.empty
              highlights := []
              turn := (room.turn + 1) % room.players.length }
        | _ => room

/-- The `joinRoom` handler (the room is already looked up / created). -/
def joinRoom (room : Room) (sid : Nat) (nm : String) (asSpectator : Bool) : Room :=
  let forceSpectator := room.started
  if !forceSpectator && !asSpectator && decide (room.players.length < 4) then
    let myIndex := room.players.length
    let k := myIndex + 1
    let pname := (if nm = ("") then s!"P{k}" else nm).take 24
    let players1 := room.players ++ [⟨sid, pname⟩]
    if !room.started then
      let t := room.settings.tilesPerSymbol
      { room with
        players := players1
        scores := List.replicate players1.length 0
        stock := List.replicate players1.length ⟨t, t, t⟩ }
    else { room with players := players1 }
  else
    let sname := (if nm = ("") then ("Spectator") else nm).take 24
    { room with spectators := room.spectators ++ [⟨sid, sname⟩] }

/-- Tail of the `leaveRoom` handler: dismantle the room when no players
remain (regardless of spectators), else reset the started/game-over flags. -/
def leaveRoomFinish (room : Room) : Option Room :=
  if room.players.length = 0 then none
  else some { room with
    started := false
    gameOver := false
    message := ("You left the room.") }

/-- The `leaveRoom` handler: remove the actor as spectator and as player
(adjusting the turn cursor when it falls off the shortened roster), then the
common tail.  `none` models `rooms.delete(roomId)`. -/
def leaveRoom (room : Room) (sid : Nat) : Option Room :=
  let room1 : Room :=
    match jsFindIndex (fun sp => decide (sp.sid = sid)) room.spectators with
    | some sIdx => { room with spectators := room.spectators.eraseIdx sIdx }
    | none => room
  match jsFindIndex (fun p => decide (p.sid = sid)) room1.players with
  | some pIdx =>
    let players1 := room1.players.eraseIdx pIdx
    let turn1 := if players1.length ≤ room1.turn then 0 else room1.turn
    leaveRoomFinish { room1 with
      players := players1
      turn := turn1
      scores := room1.scores.eraseIdx pIdx
      stock := room1.stock.eraseIdx pIdx }
  | none => leaveRoomFinish room1

/-- The `disconnect` handler: remove the actor's player entry (players,
scores, stock — with no turn adjustment in the source) and spectator entry;
dismantle the room when no players remain. -/
def disconnectRoom (room : Room) (sid : Nat) : Option Room :=
  let room1 : Room :=
    match jsFindIndex (fun p => decide (p.sid = sid)) room.players with
    | some pIdx =>
      { room with
        players := room.players.eraseIdx pIdx
        scores := room.scores.eraseIdx pIdx
        stock := room.stock.eraseIdx pIdx }
    | none => room
  let room2 : Room :=
    match jsFindIndex (fun sp => decide (sp.sid = sid)) room1.spectators with
    | some sIdx => { room1 with spectators := room1.spectators.eraseIdx sIdx }
    | none => room1
  if room2.players.length = 0 then none else some room2

/-- A numeric configuration field as received by `newGame`, partitioned by
what `parseInt(x ?? default, 10)` does with it: absent/null (the default is
substituted), unparseable (`parseInt` yields NaN), or parseable to an
integer. -/
inductive NumIn where
  | missing
  | nan
  | num (n : Int)
deriving DecidableEq, Repr

/-- `parseInt(x ?? dflt, 10)`, with `none` standing for NaN. -/
def parseIntD (dflt : Int) : NumIn → Option Int
  | .missing => some dflt
  | .nan => none
  | .num n => some n

/-- `Math.max(lo, Math.min(hi, v))`: both propagate NaN (`none`). -/
def clampNum (lo hi : Int) : Option Int → Option Int
  | some n => some (max lo (min hi n))
  | none => none

/-- The three setting assignments of the `newGame` handler (lines run after
the membership check), `none` standing for NaN. -/
def newGameSettings (t bl pw : NumIn) : Option Int × Option Int × Option Int :=
  (clampNum 1 99 (parseIntD 10 t),
   clampNum 0 (boardSize * boardSize) (parseIntD 8 bl),
   clampNum 1 999 (parseIntD 7 pw))

/-- The `empties` scan of `randomEmptyCell`, in row-major source order. -/
def emptyCells (b : Board) : List (Int × Int) :=
  ((List.range 8).map fun r =>
    (List.range 8).filterMap fun c =>
      if getCell b (r : Int) (c : Int) = Cell.empty then some ((r : Int), (c : Int))
      else none).flatten

/-- `placeRandomBlockers(board, count)` with the `Math.random()` draws
injected as an oracle `rand`: each step picks `empties[rand step % len]`
(the source picks `empties[floor(random * len)]`, an arbitrary index below
`len`) and stops early when no empty cell remains. -/
def placeRandomBlockers (rand : Nat → Nat) (b : Board) : Nat → Nat → Board
  | 0, _ => b
  | count + 1, step =>
    let empties := emptyCells b
    if empties.length = 0 then b
    else
      let pos := empties.getD (rand step % empties.length) (0, 0)
      placeRandomBlockers rand (setCell b pos.1 pos.2 Cell.blocker) count (step + 1)

/-- The membership check of `newGame`. -/
def memberOf (room : Room) (sid : Nat) : Bool :=
  (room.players.any fun p => decide (p.sid = sid))
    || (room.spectators.any fun sp => decide (sp.sid = sid))

/-- The `newGame` handler on a room, for inputs whose `parseInt` result is a
number: `t`/`bl`/`pw` are the parsed integers (`none` = field missing, so the
default is used).  Unparseable (NaN) inputs are modelled by
`newGameSettings`, since NaN settings are not representable in the `Nat`
settings record. -/
def newGameRoom (room : Room) (sid : Nat) (rand : Nat → Nat) (t bl pw : Option Int) : Room :=
  if !memberOf room sid then room
  else
    let tiles := (max 1 (min 99 (t.getD 10))).toNat
    let blk := (max 0 (min (boardSize * boardSize) (bl.getD 8))).toNat
    let ptw := (max 1 (min 999 (pw.getD 7))).toNat
    let n := room.players.length
    let base : Room := { room with
      settings := ⟨tiles, blk, ptw⟩
      turn := 0
      lastPlayed := []
      scores := List.replicate n 0
      stock := List.replicate n ⟨tiles, tiles, tiles⟩
      board := createEmptyBoard
      gameOver := false
      message := ("New game started.")
      started := true
      highlights := [] }
    if 0 < blk then { base with board := placeRandomBlockers rand base.board blk 0 }
    else base

/-! ### Basic board lemmas -/

lemma inBounds_elim {r c : Int} (h : inBounds r c = true) :
    0 ≤ r ∧ r < 8 ∧ 0 ≤ c ∧ c < 8 := by
  simp only [inBounds, boardSize, Bool.and_eq_true, decide_eq_true_eq] at h
  exact ⟨h.1.1.1, h.1.1.2, h.1.2, h.2⟩

lemma getCell_eq_apply {b : Board} {r c : Int} (h : inBounds r c = true) :
    getCell b r c = b r.toNat c.toNat := by
  simp [getCell, h]

lemma getCell_piece_inBounds {b : Board} {r c : Int} {p : Nat} {s : Sym}
    (h : getCell b r c = Cell.piece p s) : inBounds r c = true := by
  by_cases hb : inBounds r c = true
  · exact hb
  · simp [getCell, hb] at h

lemma setCell_apply_of_inBounds {b : Board} {r c : Int} {v : Cell}
    (h : inBounds r c = true) :
    setCell b r c v = fun x y => if x = r.toNat ∧ y = c.toNat then v else b x y := by
  simp [setCell, h]

lemma getCell_setCell_self {b : Board} {r c : Int} {v : Cell}
    (h : inBounds r c = true) : getCell (setCell b r c v) r c = v := by
  rw [getCell_eq_apply h, setCell_apply_of_inBounds h]
  simp

lemma getCell_setCell_ne {b : Board} {r c r2 c2 : Int} {v : Cell}
    (h : inBounds r c = true) (hne : ¬(r2 = r ∧ c2 = c)) :
    getCell (setCell b r c v) r2 c2 = getCell b r2 c2 := by
  by_cases h2 : inBounds r2 c2 = true
  · rw [getCell_eq_apply h2, getCell_eq_apply h2, setCell_apply_of_inBounds h]
    have hb := inBounds_elim h
    have hb2 := inBounds_elim h2
    by_cases hx : r2.toNat = r.toNat ∧ c2.toNat = c.toNat
    · exact absurd ⟨by omega, by omega⟩ hne
    · simp [hx]
  · simp [getCell, h2]

/-! ### Elimination: what it can remove, and how much -/

/-- All changes an elimination pass makes to a board: a cell changes only by
an enemy piece (owner different from the placer) whose symbol is beaten by
the placed symbol turning into `Empty`. -/
def ElimDiff (b b2 : Board) (pl : Nat) (sy : Sym) : Prop :=
  ∀ x y : Nat, b2 x y ≠ b x y →
    ∃ q t, b x y = Cell.piece q t ∧ q ≠ pl ∧ weakTo t = sy ∧ b2 x y = Cell.empty

lemma elimDiff_refl (b : Board) (pl : Nat) (sy : Sym) : ElimDiff b b pl sy :=
  fun _ _ h => absurd rfl h

lemma elimDiff_trans {b b1 b2 : Board} {pl : Nat} {sy : Sym}
    (h1 : ElimDiff b b1 pl sy) (h2 : ElimDiff b1 b2 pl sy) :
    ElimDiff b b2 pl sy := by
  intro x y hne
  by_cases hmid : b1 x y = b x y
  · obtain ⟨q, t, hb1, hq, hw, he⟩ := h2 x y (by rw [hmid]; exact hne)
    exact ⟨q, t, hmid ▸ hb1, hq, hw, he⟩
  · obtain ⟨q, t, hb, hq, hw, he⟩ := h1 x y hmid
    by_cases hlast : b2 x y = b1 x y
    · exact ⟨q, t, hb, hq, hw, by rw [hlast, he]⟩
    · obtain ⟨q2, t2, hb2, _, _, _⟩ := h2 x y hlast
      rw [he] at hb2
      exact absurd hb2 (by simp)

lemma tryEliminate_elimDiff (b : Board) (rr cc : Int) (pl : Nat) (sy : Sym) (i : Nat) :
    ElimDiff b (tryEliminate b rr cc pl sy i).board pl sy := by
  unfold tryEliminate
  split
  next => exact elimDiff_refl b pl sy
  next hnb =>
    have hb2 : inBounds rr cc = true := by
      revert hnb
      cases hIn : inBounds rr cc <;> simp
    split
    next => exact elimDiff_refl b pl sy
    next => exact elimDiff_refl b pl sy
    next p s heq =>
      split
      next => exact elimDiff_refl b pl sy
      next hp =>
        split
        next hw =>
          intro x y hne
          simp only
          by_cases hx : x = rr.toNat ∧ y = cc.toNat
          · refine ⟨p, s, ?_, hp, hw, ?_⟩
            · rw [hx.1, hx.2, ← getCell_eq_apply (b := b) hb2, heq]
            · rw [setCell_apply_of_inBounds hb2]
              simp [hx]
          · exfalso
            apply hne
            simp only [setCell_apply_of_inBounds hb2]
            simp [hx]
        next => exact elimDiff_refl b pl sy

lemma tryEliminate_removed_le (b : Board) (rr cc : Int) (pl : Nat) (sy : Sym) (i : Nat) :
    (tryEliminate b rr cc pl sy i).removed ≤ 1 := by
  unfold tryEliminate
  split
  · simp
  · split
    · simp
    · simp
    · split
      · simp
      · split
        · simp
        · simp

lemma elimPairs_spec (pl : Nat) (sy : Sym) (r c dr dc : Int) (i : Nat) :
    ∀ (b : Board) (l : List (Int × Int)),
      ElimDiff b (elimPairs b pl sy r c dr dc i l).board pl sy ∧
        (elimPairs b pl sy r c dr dc i l).removed ≤ 2
  | b, [] => by
    simp only [elimPairs]
    exact ⟨elimDiff_refl b pl sy, by simp⟩
  | b, [x] => by
    simp only [elimPairs]
    exact ⟨elimDiff_refl b pl sy, by simp⟩
  | b, a :: bb :: rest => by
    by_cases hnew :
        ((decide (a.1 = r) && decide (a.2 = c)) || (decide (bb.1 = r) && decide (bb.2 = c))) = true
    · simp only [elimPairs, hnew, if_true]
      constructor
      · exact elimDiff_trans (tryEliminate_elimDiff b (a.1 - dr) (a.2 - dc) pl sy i)
          (tryEliminate_elimDiff _ (bb.1 + dr) (bb.2 + dc) pl sy i)
      · have h1 := tryEliminate_removed_le b (a.1 - dr) (a.2 - dc) pl sy i
        have h2 := tryEliminate_removed_le
          (tryEliminate b (a.1 - dr) (a.2 - dc) pl sy i).board (bb.1 + dr) (bb.2 + dc) pl sy i
        omega
    · simp only [elimPairs, hnew, if_false]
      exact elimPairs_spec pl sy r c dr dc i b (bb :: rest)

lemma elimFold_spec (pl : Nat) (sy : Sym) (r c : Int) (i : Nat) (b : Board) :
    ∀ (l : List (Int × Int)) (acc : ElimOut), ElimDiff b acc.board pl sy →
      ElimDiff b (l.foldl (elimStep pl sy r c i) acc).board pl sy ∧
        (l.foldl (elimStep pl sy r c i) acc).removed ≤ acc.removed + 2 * l.length
  | [], acc, hacc => ⟨hacc, by simp⟩
  | d :: rest, acc, hacc => by
    simp only [List.foldl_cons]
    have hstep := elimPairs_spec pl sy r c d.1 d.2 i acc.board
      (lineThrough acc.board pl sy r c d.1 d.2)
    have hdiff : ElimDiff b (elimStep pl sy r c i acc d).board pl sy :=
      elimDiff_trans hacc (hstep.1)
    have hrem : (elimStep pl sy r c i acc d).removed ≤ acc.removed + 2 := by
      simp only [elimStep]
      have := hstep.2
      omega
    obtain ⟨hd, hr⟩ := elimFold_spec pl sy r c i b rest (elimStep pl sy r c i acc d) hdiff
    refine ⟨hd, ?_⟩
    simp only [List.length_cons]
    omega

lemma resolve_elimDiff {b : Board} {r c : Int} {i pl : Nat} {sy : Sym}
    (h : getCell b r c = Cell.piece pl sy) :
    ElimDiff b (resolveEliminationsFrom b r c i).board pl sy := by
  unfold resolveEliminationsFrom
  rw [h]
  exact (elimFold_spec pl sy r c i b deltas ⟨0, b, []⟩ (elimDiff_refl b pl sy)).1

lemma resolve_removed_le {b : Board} {r c : Int} {i pl : Nat} {sy : Sym}
    (h : getCell b r c = Cell.piece pl sy) :
    (resolveEliminationsFrom b r c i).removed ≤ 8 := by
  unfold resolveEliminationsFrom
  rw [h]
  have := (elimFold_spec pl sy r c i b deltas ⟨0, b, []⟩ (elimDiff_refl b pl sy)).2
  simpa [deltas] using this

/-- The placed piece itself is never removed by the elimination pass. -/
lemma resolve_keeps_placed {b : Board} {r c : Int} {i pl : Nat} {sy : Sym}
    (h : getCell b r c = Cell.piece pl sy) :
    getCell (resolveEliminationsFrom b r c i).board r c = Cell.piece pl sy := by
  have hb := getCell_piece_inBounds h
  have hdiff := resolve_elimDiff (i := i) h
  rw [getCell_eq_apply hb] at h ⊢
  by_cases hch : (resolveEliminationsFrom b r c i).board r.toNat c.toNat = b r.toNat c.toNat
  · rw [hch, h]
  · obtain ⟨q, t, hbq, hq, _, _⟩ := hdiff r.toNat c.toNat hch
    rw [h] at hbq
    cases hbq
    exact absurd rfl hq

/-! ### List and stock helpers -/

lemma getD_set_self {A : Type} (l : List A) (i : Nat) (v d : A) (h : i < l.length) :
    (l.set i v).getD i d = v := by
  rw [List.getD_eq_getElem?_getD, List.getElem?_set_self h]
  rfl

lemma stock_get_dec (st : Stock) (sy : Sym) : (st.dec sy).get sy = st.get sy - 1 := by
  cases sy <;> rfl

lemma jsFindIndex_lt_length {A : Type} (p : A → Bool) :
    ∀ (l : List A) (i : Nat), jsFindIndex p l = some i → i < l.length
  | [], i, h => by simp [jsFindIndex] at h
  | x :: xs, i, h => by
    simp only [jsFindIndex] at h
    by_cases hp : p x = true
    · rw [if_pos hp] at h
      cases h
      simp
    · rw [if_neg hp] at h
      cases hx : jsFindIndex p xs with
      | none => rw [hx] at h; simp at h
      | some j =>
        rw [hx] at h
        have hj : j + 1 = i := by
          simpa using h
        have := jsFindIndex_lt_length p xs j hx
        simp only [List.length_cons]
        omega

/-! ### Concrete scenario boards and rooms -/

/-- A lone Rock of player 0 at `(0, 2)` flanked by an enemy Scissors of
player 1 at `(0, 1)`. -/
def boardFlank : Board := fun x y =>
  if x = 0 ∧ y = 1 then Cell.piece 1 Sym.S
  else if x = 0 ∧ y = 2 then Cell.piece 0 Sym.R
  else Cell.empty

/-! ### Claim C1 -/

/-- Claim C1, counterexample: player 0's Rock placed at `(0, 2)` forms the
singleton run `[(0, 2)]` horizontally; the cell `(0, 1)` just beyond that
run's end is in bounds and holds player 1's Scissors, which the placed Rock
defeats — yet `resolveEliminationsFrom` removes nothing and leaves the board
unchanged, because a length-1 run yields no consecutive pair to scan. -/
theorem c1_runEnd_rule_fails :
    getCell boardFlank 0 2 = Cell.piece 0 Sym.R ∧
    lineThrough boardFlank 0 Sym.R 0 2 0 1 = [(0, 2)] ∧
    inBounds 0 1 = true ∧
    getCell boardFlank 0 1 = Cell.piece 1 Sym.S ∧
    (1 : Nat) ≠ 0 ∧
    weakTo Sym.S = Sym.R ∧
    (resolveEliminationsFrom boardFlank 0 2 0).removed = 0 ∧
    getCell (resolveEliminationsFrom boardFlank 0 2 0).board 0 1 = Cell.piece 1 Sym.S := by
  decide

/-- The pair selection of `resolveEliminationsFrom`'s scan: the first
consecutive pair of run cells that contains the new piece, if any (a run of
length ≤ 1 has none). -/
def firstPair (r c : Int) : List (Int × Int) → Option ((Int × Int) × (Int × Int))
  | [] => none
  | [_] => none
  | a :: bb :: rest =>
    if (decide (a.1 = r) && decide (a.2 = c)) || (decide (bb.1 = r) && decide (bb.2 = c)) then
      some (a, bb)
    else firstPair r c (bb :: rest)

/-- The removal condition of `tryEliminate`: in bounds and holding a
non-Blocker piece of a different owner whose symbol is defeated by the
placed symbol. -/
def elimTarget (b : Board) (rr cc : Int) (attPl : Nat) (attSy : Sym) : Prop :=
  inBounds rr cc = true ∧
    ∃ q t, getCell b rr cc = Cell.piece q t ∧ q ≠ attPl ∧ weakTo t = attSy

/-- The pair scan is exactly: find the first consecutive pair containing the
new piece, then try to eliminate one step before its first cell and one step
after its second cell (threading the board between the two), else nothing. -/
lemma elimPairs_eq (b : Board) (pl : Nat) (sy : Sym) (r c dr dc : Int) (i : Nat) :
    ∀ l : List (Int × Int), elimPairs b pl sy r c dr dc i l =
      match firstPair r c l with
      | none => ⟨0, b, []⟩
      | some (a, bb) =>
        ⟨(tryEliminate b (a.1 - dr) (a.2 - dc) pl sy i).removed
            + (tryEliminate (tryEliminate b (a.1 - dr) (a.2 - dc) pl sy i).board
                (bb.1 + dr) (bb.2 + dc) pl sy i).removed,
          (tryEliminate (tryEliminate b (a.1 - dr) (a.2 - dc) pl sy i).board
              (bb.1 + dr) (bb.2 + dc) pl sy i).board,
          (tryEliminate b (a.1 - dr) (a.2 - dc) pl sy i).highlights
            ++ (tryEliminate (tryEliminate b (a.1 - dr) (a.2 - dc) pl sy i).board
                (bb.1 + dr) (bb.2 + dc) pl sy i).highlights⟩
  | [] => rfl
  | [_] => rfl
  | a :: bb :: rest => by
    by_cases hcond : ((decide (a.1 = r) && decide (a.2 = c))
        || (decide (bb.1 = r) && decide (bb.2 = c))) = true
    · simp only [elimPairs, firstPair, if_pos hcond]
    · simp only [elimPairs, firstPair, if_neg hcond]
      exact elimPairs_eq b pl sy r c dr dc i (bb :: rest)

/-- A checked cell that satisfies the removal condition is removed (that one
cell becomes Empty) and counts as exactly one credited elimination. -/
lemma tryEliminate_pos {b : Board} {rr cc : Int} {pl : Nat} {sy : Sym} (i : Nat)
    (h : elimTarget b rr cc pl sy) :
    (tryEliminate b rr cc pl sy i).removed = 1 ∧
    (tryEliminate b rr cc pl sy i).board = setCell b rr cc Cell.empty ∧
    (tryEliminate b rr cc pl sy i).highlights = [⟨[(rr, cc)], i⟩] := by
  obtain ⟨hb, q, t, hcell, hq, hw⟩ := h
  unfold tryEliminate
  simp only [hb, Bool.not_true, Bool.false_eq_true, if_false, hcell, if_neg hq, if_pos hw]
  simp

/-- A checked cell that fails the removal condition is left alone and counts
zero. -/
lemma tryEliminate_neg {b : Board} {rr cc : Int} {pl : Nat} {sy : Sym} (i : Nat)
    (h : ¬ elimTarget b rr cc pl sy) :
    tryEliminate b rr cc pl sy i = ⟨0, b, []⟩ := by
  unfold tryEliminate
  by_cases hb : inBounds rr cc = true
  · simp only [hb, Bool.not_true, Bool.false_eq_true, if_false]
    cases hcell : getCell b rr cc with
    | empty => rfl
    | blocker => rfl
    | piece q t =>
      dsimp only
      by_cases hq : q = pl
      · rw [if_pos hq]
      · rw [if_neg hq]
        by_cases hw : weakTo t = sy
        · exact absurd ⟨hb, q, t, hcell, hq, hw⟩ h
        · rw [if_neg hw]
  · have hb2 : inBounds rr cc = false := by
      cases hx : inBounds rr cc with
      | false => rfl
      | true => exact absurd hx hb
    simp [hb2]

/-- A started two-player room on an empty board with default settings. -/
def roomTwo : Room :=
  { settings := ⟨10, 8, 7⟩
    players := [⟨100, ("Alice")⟩, ⟨200, ("Bob")⟩]
    spectators := []
    turn := 0
    lastPlayed := []
    scores := [0, 0]
    stock := [⟨10, 10, 10⟩, ⟨10, 10, 10⟩]
    board := createEmptyBoard
    gameOver := false
    message := ("")
    started := true
    highlights := [] }

/-- A started one-player room (a single player may keep placing, since the
turn wraps around to seat 0) with a high points threshold. -/
def roomSolo : Room :=
  { settings := ⟨10, 8, 50⟩
    players := [⟨7, ("Solo")⟩]
    spectators := []
    turn := 0
    lastPlayed := []
    scores := [0]
    stock := [⟨10, 10, 10⟩]
    board := createEmptyBoard
    gameOver := false
    message := ("")
    started := true
    highlights := [] }

/-- Player 0's Rocks at `(0, 0)` and `(0, 1)` (the new piece at `(0, 1)`
makes a run of length 2) with player 1's Scissors at `(0, 2)` just beyond
the pair: a placement that does eliminate. -/
def boardRun2 : Board := fun x y =>
  if x = 0 ∧ (y = 0 ∨ y = 1) then Cell.piece 0 Sym.R
  else if x = 0 ∧ y = 2 then Cell.piece 1 Sym.S
  else Cell.empty

/-- Claim C1 (amended): the elimination pass folds the per-direction step
over the four directions; in each direction, on the current board, if the
run through `(r, c)` is the singleton `[(r, c)]` nothing changes in that
direction, and otherwise the step checks exactly the two cells one step
before and one step after the first consecutive pair of run cells containing
`(r, c)`; a checked cell is removed — set to Empty — and credited as exactly
one elimination iff it is in bounds and holds a non-Blocker piece of a
different owner whose symbol is defeated by the placed symbol, and is left
untouched with zero credit otherwise; each direction adds at most 2
removals, the total is at most 8, the placing player's pieces (including the
placed piece) are never removed, and in the concrete two-player game
R(0,0)/S(0,2)/R(0,1) the Scissors is removed and the placing player is
credited one point. -/
theorem c1_elimination_amended (b : Board) (r c : Int) (i pl : Nat) (sy : Sym)
    (h : getCell b r c = Cell.piece pl sy) :
    resolveEliminationsFrom b r c i = deltas.foldl (elimStep pl sy r c i) ⟨0, b, []⟩ ∧
    (∀ (acc : ElimOut) (d : Int × Int),
      (lineThrough acc.board pl sy r c d.1 d.2 = [(r, c)] →
        (elimStep pl sy r c i acc d).removed = acc.removed ∧
        (elimStep pl sy r c i acc d).board = acc.board ∧
        (elimStep pl sy r c i acc d).highlights = acc.highlights) ∧
      (∀ a bb, firstPair r c (lineThrough acc.board pl sy r c d.1 d.2) = some (a, bb) →
        (elimStep pl sy r c i acc d).removed
          = acc.removed
            + ((tryEliminate acc.board (a.1 - d.1) (a.2 - d.2) pl sy i).removed
              + (tryEliminate (tryEliminate acc.board (a.1 - d.1) (a.2 - d.2) pl sy i).board
                  (bb.1 + d.1) (bb.2 + d.2) pl sy i).removed) ∧
        (elimStep pl sy r c i acc d).board
          = (tryEliminate (tryEliminate acc.board (a.1 - d.1) (a.2 - d.2) pl sy i).board
              (bb.1 + d.1) (bb.2 + d.2) pl sy i).board) ∧
      (elimStep pl sy r c i acc d).removed ≤ acc.removed + 2) ∧
    (∀ (bd : Board) (rr cc : Int),
      (elimTarget bd rr cc pl sy →
        (tryEliminate bd rr cc pl sy i).removed = 1 ∧
        (tryEliminate bd rr cc pl sy i).board = setCell bd rr cc Cell.empty) ∧
      (¬ elimTarget bd rr cc pl sy → tryEliminate bd rr cc pl sy i = ⟨0, bd, []⟩)) ∧
    (resolveEliminationsFrom b r c i).removed ≤ 8 ∧
    getCell (resolveEliminationsFrom b r c i).board r c = Cell.piece pl sy ∧
    (∀ x y : Nat, (resolveEliminationsFrom b r c i).board x y ≠ b x y →
      ∃ q t, b x y = Cell.piece q t ∧ q ≠ pl ∧ weakTo t = sy ∧
        (resolveEliminationsFrom b r c i).board x y = Cell.empty) ∧
    (placePiece (placePiece (placePiece roomTwo 100 0 0 (some Sym.R))
        200 0 2 (some Sym.S)) 100 0 1 (some Sym.R)).scores = [1, 0] ∧
    getCell (placePiece (placePiece (placePiece roomTwo 100 0 0 (some Sym.R))
        200 0 2 (some Sym.S)) 100 0 1 (some Sym.R)).board 0 2 = Cell.empty := by
  refine ⟨?_, ?_, ?_, resolve_removed_le h, resolve_keeps_placed h, resolve_elimDiff h,
    by decide, by decide⟩
  · unfold resolveEliminationsFrom
    rw [h]
  · intro acc d
    refine ⟨?_, ?_, ?_⟩
    · intro hline
      simp only [elimStep]
      rw [hline]
      exact ⟨rfl, rfl, by simp [elimPairs]⟩
    · intro a bb hfp
      simp only [elimStep]
      rw [elimPairs_eq, hfp]
      exact ⟨rfl, rfl⟩
    · simp only [elimStep]
      have h2 := (elimPairs_spec pl sy r c d.1 d.2 i acc.board
        (lineThrough acc.board pl sy r c d.1 d.2)).2
      omega
  · intro bd rr cc
    exact ⟨fun ht => ⟨(tryEliminate_pos i ht).1, (tryEliminate_pos i ht).2.1⟩,
      tryEliminate_neg i⟩

/-- Witness for C1 (amended) at `boardRun2`: the pass stays within its
bound, and the checked enemy cell `(0, 2)` — which satisfies the removal
condition — is removed for one credit. -/
theorem c1_elimination_amended_witness :
    (resolveEliminationsFrom boardRun2 0 1 0).removed ≤ 8 ∧
    (tryEliminate boardRun2 0 2 0 Sym.R 0).removed = 1 ∧
    (tryEliminate boardRun2 0 2 0 Sym.R 0).board = setCell boardRun2 0 2 Cell.empty :=
  ⟨(c1_elimination_amended boardRun2 0 1 0 0 Sym.R (by decide)).2.2.2.1,
   ((c1_elimination_amended boardRun2 0 1 0 0 Sym.R (by decide)).2.2.1 boardRun2 0 2).1
     ⟨by decide, 1, Sym.S, by decide, by decide, by decide⟩ |>.1,
   ((c1_elimination_amended boardRun2 0 1 0 0 Sym.R (by decide)).2.2.1 boardRun2 0 2).1
     ⟨by decide, 1, Sym.S, by decide, by decide, by decide⟩ |>.2⟩

/-! ### Claim C5 -/

/-- Claim C5: on an otherwise empty board, player 0 places Rock at `(0, 0)`,
player 1 places Scissors at `(0, 1)`, player 0 places Rock at `(0, 2)`: the
Scissors piece at `(0, 1)` is NOT eliminated (mere flanking adjacency does
not trigger elimination), all three pieces remain, nobody scores, and the
turn passes to player 1. -/
theorem c5_no_flank_elimination :
    getCell (placePiece (placePiece (placePiece roomTwo 100 0 0 (some Sym.R))
        200 0 1 (some Sym.S)) 100 0 2 (some Sym.R)).board 0 1 = Cell.piece 1 Sym.S ∧
    getCell (placePiece (placePiece (placePiece roomTwo 100 0 0 (some Sym.R))
        200 0 1 (some Sym.S)) 100 0 2 (some Sym.R)).board 0 0 = Cell.piece 0 Sym.R ∧
    getCell (placePiece (placePiece (placePiece roomTwo 100 0 0 (some Sym.R))
        200 0 1 (some Sym.S)) 100 0 2 (some Sym.R)).board 0 2 = Cell.piece 0 Sym.R ∧
    (placePiece (placePiece (placePiece roomTwo 100 0 0 (some Sym.R))
        200 0 1 (some Sym.S)) 100 0 2 (some Sym.R)).scores = [0, 0] ∧
    (placePiece (placePiece (placePiece roomTwo 100 0 0 (some Sym.R))
        200 0 1 (some Sym.S)) 100 0 2 (some Sym.R)).turn = 1 := by
  decide

/-! ### Claim C7 -/

/-- A two-player room where it is seat 1's turn. -/
def roomTurnOne : Room := { roomTwo with turn := 1 }

/-- Claim C7 is right and the code is wrong: when the player at seat 0 of a
two-player room with `turn = 1` disconnects, the `disconnect` handler removes
the player but — unlike `leaveRoom` — never adjusts the turn cursor, leaving
`turn = 1` with only one player, so `0 ≤ turn < playerCount` fails while the
player list is non-empty (and every further placement is rejected, since no
remaining seat index can equal the turn). -/
theorem c7_disconnect_turn_bug :
    (disconnectRoom roomTurnOne 100).map (fun x => (x.players.length, x.turn))
      = some (1, 1) ∧
    (disconnectRoom roomTurnOne 100).map (fun x => decide (x.turn < x.players.length))
      = some false := by
  decide

/-! ### Claim C9 -/

/-- Claim C9, counterexample: a non-numeric `tilesPerSymbol` (anything
`parseInt` turns into NaN) is not clamped into `[1, 99]` — `Math.min`/
`Math.max` propagate the NaN (modelled as `none`) into the room settings, so
the result is not an integer in range. -/
theorem c9_nan_escapes_clamp :
    ¬ ∃ n : Int, (newGameSettings NumIn.nan NumIn.missing NumIn.missing).1 = some n ∧
      1 ≤ n ∧ n ≤ 99 := by
  intro ⟨n, h, _, _⟩
  simp [newGameSettings, parseIntD, clampNum] at h

/-- Claim C9 (amended): for every accepted `newGame` request whose numeric
fields are each either missing (default substituted) or parseable to an
integer, the resulting settings are clamped rather than rejected:
`tilesPerSymbol` into `[1, 99]`, `blockers` into `[0, 64]` and `pointsToWin`
into `[1, 999]`; an unparseable field instead yields NaN (not clamped). -/
theorem c9_clamp_amended (t bl pw : NumIn)
    (ht : t ≠ NumIn.nan) (hb : bl ≠ NumIn.nan) (hp : pw ≠ NumIn.nan) :
    ∃ x y z : Int, newGameSettings t bl pw = (some x, some y, some z) ∧
      1 ≤ x ∧ x ≤ 99 ∧ 0 ≤ y ∧ y ≤ 64 ∧ 1 ≤ z ∧ z ≤ 999 := by
  have hx : ∀ (u : NumIn) (dflt lo hi : Int), u ≠ NumIn.nan → lo ≤ hi →
      lo ≤ dflt → dflt ≤ hi →
      ∃ v : Int, clampNum lo hi (parseIntD dflt u) = some v ∧ lo ≤ v ∧ v ≤ hi := by
    intro u dflt lo hi hu hlh hld hdh
    cases u with
    | missing =>
      refine ⟨max lo (min hi dflt), rfl, le_max_left lo _, ?_⟩
      omega
    | nan => exact absurd rfl hu
    | num n =>
      refine ⟨max lo (min hi n), rfl, le_max_left lo _, ?_⟩
      omega
  obtain ⟨x, hxe, hx1, hx2⟩ := hx t 10 1 99 ht (by omega) (by omega) (by omega)
  obtain ⟨y, hye, hy1, hy2⟩ := hx bl 8 0 (boardSize * boardSize) hb
    (by decide) (by decide) (by decide)
  obtain ⟨z, hze, hz1, hz2⟩ := hx pw 7 1 999 hp (by omega) (by omega) (by omega)
  refine ⟨x, y, z, ?_, hx1, hx2, hy1, ?_, hz1, hz2⟩
  · simp [newGameSettings, hxe, hye, hze]
  · simpa [boardSize] using hy2

/-- Witness for C9 (amended): an oversized tiles value, a missing blocker
count and a negative points threshold are all clamped. -/
theorem c9_clamp_amended_witness :
    ∃ x y z : Int, newGameSettings (NumIn.num 1000) NumIn.missing (NumIn.num (-5))
      = (some x, some y, some z) ∧
      1 ≤ x ∧ x ≤ 99 ∧ 0 ≤ y ∧ y ≤ 64 ∧ 1 ≤ z ∧ z ≤ 999 :=
  c9_clamp_amended (NumIn.num 1000) NumIn.missing (NumIn.num (-5))
    (by decide) (by decide) (by decide)

/-- A one-player, not-started, not-over room holding a Blocker at `(0, 0)` —
the state a started game's board is left in after a `leaveRoom` reset. -/
def roomBlocker : Room := { roomSolo with
  started := false
  board := fun x y => if x = 0 ∧ y = 0 then Cell.blocker else Cell.empty }

/-! ### Claim C8 -/

/-- The guard chain of the `moveBlocker` handler, as one predicate: not game
over, the actor holds the seat whose turn it is, both cells in bounds, the
source cell holds a Blocker, the target is Empty, and the Chebyshev distance
is exactly 1 (which is precisely the source's rejection of the zero vector
and of any component above 1). -/
def moveOk (room : Room) (sid : Nat) (fr fc tr tc : Int) : Prop :=
  room.gameOver = false ∧
  ∃ playerIdx, findSeat room sid = some playerIdx ∧ playerIdx = room.turn ∧
    inBounds fr fc = true ∧ inBounds tr tc = true ∧
    getCell room.board fr fc = Cell.blocker ∧
    getCell room.board tr tc = Cell.empty ∧
    max (fr - tr).natAbs (fc - tc).natAbs = 1

lemma chebRejected_eq_false {fr fc tr tc : Int}
    (h : max (fr - tr).natAbs (fc - tc).natAbs = 1) :
    chebRejected fr fc tr tc = false := by
  simp only [chebRejected, Bool.or_eq_false_iff, Bool.and_eq_false_iff,
    decide_eq_false_iff_not]
  omega

lemma moveBlocker_of_ok {room : Room} {sid : Nat} {fr fc tr tc : Int}
    (h : moveOk room sid fr fc tr tc) :
    moveBlocker room sid fr fc tr tc =
      { room with
        board := setCell (setCell room.board tr tc Cell.blocker) fr fc Cell.empty
        highlights := []
        turn := (room.turn + 1) % room.players.length } := by
  obtain ⟨hgo, pIdx, hseat, hturn, hf, ht, hblk, hemp, hcheb⟩ := h
  unfold moveBlocker
  rw [hgo, hseat, hblk]
  simp [hturn, hf, ht, hemp, chebRejected_eq_false hcheb]

lemma chebRejected_eq_true {fr fc tr tc : Int}
    (h : ¬ max (fr - tr).natAbs (fc - tc).natAbs = 1) :
    chebRejected fr fc tr tc = true := by
  simp only [chebRejected, Bool.or_eq_true, Bool.and_eq_true, decide_eq_true_eq]
  omega

lemma moveBlocker_of_not_ok {room : Room} {sid : Nat} {fr fc tr tc : Int}
    (h : ¬ moveOk room sid fr fc tr tc) :
    moveBlocker room sid fr fc tr tc = room := by
  by_cases hgo : room.gameOver = true
  · unfold moveBlocker
    rw [hgo]
    simp
  · have hgo2 : room.gameOver = false := by
      simpa using hgo
    cases hseat : findSeat room sid with
    | none =>
      unfold moveBlocker
      rw [hgo2, hseat]
      simp
    | some pIdx =>
      by_cases hturn : pIdx = room.turn
      · by_cases hf : inBounds fr fc = true
        · by_cases ht : inBounds tr tc = true
          · cases hblk : getCell room.board fr fc with
            | empty =>
              unfold moveBlocker
              rw [hgo2, hseat, hblk]
              simp
            | blocker =>
              by_cases hemp : getCell room.board tr tc = Cell.empty
              · by_cases hcheb : max (fr - tr).natAbs (fc - tc).natAbs = 1
                · exact absurd ⟨hgo2, pIdx, hseat, hturn, hf, ht, hblk, hemp, hcheb⟩ h
                · unfold moveBlocker
                  rw [hgo2, hseat, hblk]
                  simp [hturn, hf, ht, hemp, chebRejected_eq_true hcheb]
              · unfold moveBlocker
                rw [hgo2, hseat, hblk]
                simp [hturn, hf, ht, hemp]
            | piece p s =>
              unfold moveBlocker
              rw [hgo2, hseat, hblk]
              simp
          · unfold moveBlocker
            rw [hgo2, hseat]
            have : (inBounds fr fc && inBounds tr tc) = false := by
              simp [Bool.and_eq_true, ht]
            simp [this]
        · unfold moveBlocker
          rw [hgo2, hseat]
          have : (inBounds fr fc && inBounds tr tc) = false := by
            simp [Bool.and_eq_true, hf]
          simp [this]
      · unfold moveBlocker
        rw [hgo2, hseat]
        simp [hturn]

/-- Claim C8, counterexample: in a room whose game has NOT been started
(`started = false`, e.g. after a `leaveRoom` reset, where the board keeps its
blockers), `moveBlocker` still succeeds — the handler checks `gameOver` but
never `started`, so the claim's "only when the game is in progress (started
and not over)" fails. -/
theorem c8_started_not_checked :
    roomBlocker.started = false ∧
    roomBlocker.gameOver = false ∧
    getCell roomBlocker.board 0 0 = Cell.blocker ∧
    getCell (moveBlocker roomBlocker 7 0 0 0 1).board 0 0 = Cell.empty ∧
    getCell (moveBlocker roomBlocker 7 0 0 0 1).board 0 1 = Cell.blocker := by
  decide

/-- Claim C8 (amended): `moveBlocker` changes the room iff the game is not
over (the `started` flag is NOT checked), it is the actor's turn, the source
cell holds a Blocker, the target cell is Empty and the target is at Chebyshev
distance exactly 1 (distance 0 and ≥ 2 rejected); on success it relocates
the Blocker, clears the highlights, advances the turn and never changes any
player's score or stock; on rejection nothing changes. -/
theorem c8_moveBlocker_amended (room : Room) (sid : Nat) (fr fc tr tc : Int) :
    (moveBlocker room sid fr fc tr tc ≠ room ↔ moveOk room sid fr fc tr tc) ∧
    (moveOk room sid fr fc tr tc →
      (moveBlocker room sid fr fc tr tc).board
          = setCell (setCell room.board tr tc Cell.blocker) fr fc Cell.empty ∧
      (moveBlocker room sid fr fc tr tc).highlights = [] ∧
      (moveBlocker room sid fr fc tr tc).turn = (room.turn + 1) % room.players.length ∧
      (moveBlocker room sid fr fc tr tc).scores = room.scores ∧
      (moveBlocker room sid fr fc tr tc).stock = room.stock ∧
      (moveBlocker room sid fr fc tr tc).started = room.started ∧
      (moveBlocker room sid fr fc tr tc).gameOver = false) ∧
    (¬ moveOk room sid fr fc tr tc → moveBlocker room sid fr fc tr tc = room) := by
  refine ⟨⟨fun hne => ?_, fun hok => ?_⟩, fun hok => ?_, moveBlocker_of_not_ok⟩
  · by_contra hnok
    exact hne (moveBlocker_of_not_ok hnok)
  · intro heq
    obtain ⟨hgo, pIdx, hseat, hturn, hf, ht, hblk, hemp, hcheb⟩ := hok
    have hboard : (moveBlocker room sid fr fc tr tc).board
        = setCell (setCell room.board tr tc Cell.blocker) fr fc Cell.empty := by
      rw [moveBlocker_of_ok ⟨hgo, pIdx, hseat, hturn, hf, ht, hblk, hemp, hcheb⟩]
    have hcell : getCell (moveBlocker room sid fr fc tr tc).board fr fc = Cell.empty := by
      rw [hboard, getCell_setCell_self hf]
    rw [heq, hblk] at hcell
    exact absurd hcell (by simp)
  · rw [moveBlocker_of_ok hok]
    obtain ⟨hgo, _⟩ := hok
    exact ⟨rfl, rfl, rfl, rfl, rfl, rfl, hgo⟩

/-- Witness for C8 (amended) at the concrete blocker room. -/
theorem c8_moveBlocker_amended_witness :
    (moveBlocker roomBlocker 7 0 0 0 1).highlights = [] ∧
    (moveBlocker roomBlocker 7 0 0 0 1).turn
      = (roomBlocker.turn + 1) % roomBlocker.players.length :=
  ⟨(((c8_moveBlocker_amended roomBlocker 7 0 0 0 1).2.1)
      ⟨by decide, 0, by decide, by decide, by decide, by decide, by decide, by decide,
        by decide⟩).2.1,
   (((c8_moveBlocker_amended roomBlocker 7 0 0 0 1).2.1)
      ⟨by decide, 0, by decide, by decide, by decide, by decide, by decide, by decide,
        by decide⟩).2.2.1⟩

/-! ### Claim C6 -/

/-- The guard chain of the `placePiece` handler, as one predicate: game not
over, the actor seated at the seat whose turn it is, a valid symbol, the
target in bounds and Empty, and positive remaining stock for that symbol. -/
def placeOk (room : Room) (sid : Nat) (r c : Int) (symIn : Option Sym) : Prop :=
  room.gameOver = false ∧
  ∃ playerIdx, findSeat room sid = some playerIdx ∧ playerIdx = room.turn ∧
    ∃ sy, symIn = some sy ∧ inBounds r c = true ∧
      getCell room.board r c = Cell.empty ∧
      (room.stock.getD playerIdx defaultStock).get sy ≠ 0

lemma placePiece_of_ok {room : Room} {sid : Nat} {r c : Int} {symIn : Option Sym}
    {playerIdx : Nat} {sy : Sym}
    (hgo : room.gameOver = false) (hseat : findSeat room sid = some playerIdx)
    (hturn : playerIdx = room.turn) (hsym : symIn = some sy)
    (hb : inBounds r c = true) (hcell : getCell room.board r c = Cell.empty)
    (hstock : (room.stock.getD playerIdx defaultStock).get sy ≠ 0) :
    placePiece room sid r c symIn = placeFinish room playerIdx sy r c := by
  subst hsym
  unfold placePiece
  rw [hgo]
  simp only [Bool.false_eq_true, if_false]
  simp only [hseat]
  rw [if_neg (by simp [hturn] : ¬ (!decide (playerIdx = room.turn)) = true)]
  rw [if_neg (by simp [hb] : ¬ (!inBounds r c) = true)]
  rw [if_neg (by simp [hcell] : ¬ (!decide (getCell room.board r c = Cell.empty)) = true)]
  rw [if_neg hstock]

lemma placePiece_of_not_ok {room : Room} {sid : Nat} {r c : Int} {symIn : Option Sym}
    (h : ¬ placeOk room sid r c symIn) :
    placePiece room sid r c symIn = room := by
  by_cases hgo : room.gameOver = true
  · unfold placePiece
    rw [hgo]
    simp
  · have hgo2 : room.gameOver = false := by
      simpa using hgo
    cases hseat : findSeat room sid with
    | none =>
      unfold placePiece
      rw [hgo2, hseat]
      simp
    | some pIdx =>
      by_cases hturn : pIdx = room.turn
      · cases hsym : symIn with
        | none =>
          unfold placePiece
          rw [hgo2, hseat]
          simp [hturn]
        | some sy =>
          by_cases hb : inBounds r c = true
          · by_cases hcell : getCell room.board r c = Cell.empty
            · by_cases hstock : (room.stock.getD pIdx defaultStock).get sy = 0
              · unfold placePiece
                rw [hgo2]
                simp only [Bool.false_eq_true, if_false]
                simp only [hseat, hsym]
                rw [if_neg (by simp [hturn] : ¬ (!decide (pIdx = room.turn)) = true)]
                rw [if_neg (by simp [hb] : ¬ (!inBounds r c) = true)]
                rw [if_neg
                  (by simp [hcell] : ¬ (!decide (getCell room.board r c = Cell.empty)) = true)]
                rw [if_pos hstock]
              · exact absurd ⟨hgo2, pIdx, hseat, hturn, sy, hsym, hb, hcell, hstock⟩ h
            · unfold placePiece
              rw [hgo2]
              simp only [Bool.false_eq_true, if_false]
              simp only [hseat, hsym]
              simp [hturn, hb, hcell]
          · unfold placePiece
            rw [hgo2]
            simp only [Bool.false_eq_true, if_false]
            simp only [hseat, hsym]
            have hb2 : inBounds r c = false := by
              simpa using hb
            simp [hturn, hb2]
      · unfold placePiece
        rw [hgo2, hseat]
        simp [hturn]

/-- Every branch of the terminal checks keeps the scored/mutated state. -/
lemma placeFinish_board (room : Room) (playerIdx : Nat) (sy : Sym) (r c : Int) :
    (placeFinish room playerIdx sy r c).board = (evalMove room playerIdx sy r c).board := by
  unfold placeFinish
  dsimp only
  split
  next => rfl
  next =>
    split
    next => rfl
    next =>
      split
      next => rfl
      next => rfl

lemma placeFinish_stock (room : Room) (playerIdx : Nat) (sy : Sym) (r c : Int) :
    (placeFinish room playerIdx sy r c).stock = (evalMove room playerIdx sy r c).stock := by
  unfold placeFinish
  dsimp only
  split
  next => rfl
  next =>
    split
    next => rfl
    next =>
      split
      next => rfl
      next => rfl

lemma placeFinish_scores (room : Room) (playerIdx : Nat) (sy : Sym) (r c : Int) :
    (placeFinish room playerIdx sy r c).scores = (evalMove room playerIdx sy r c).scores := by
  unfold placeFinish
  dsimp only
  split
  next => rfl
  next =>
    split
    next => rfl
    next =>
      split
      next => rfl
      next => rfl

/-- The stock list after the scoring phases: the placer's entry decremented. -/
lemma evalMove_stock (room : Room) (playerIdx : Nat) (sy : Sym) (r c : Int) :
    (evalMove room playerIdx sy r c).stock
      = room.stock.set playerIdx ((room.stock.getD playerIdx defaultStock).dec sy) := rfl

/-- After the scoring phases the placed piece is still at `(r, c)`: the
elimination pass never removes the placer's own piece. -/
lemma evalMove_board_getCell {room : Room} {playerIdx : Nat} {sy : Sym} {r c : Int}
    (hb : inBounds r c = true) :
    getCell (evalMove room playerIdx sy r c).board r c = Cell.piece playerIdx sy := by
  have h1 : getCell (setCell room.board r c (Cell.piece playerIdx sy)) r c
      = Cell.piece playerIdx sy := getCell_setCell_self hb
  exact resolve_keeps_placed h1

/-- Claim C6: `placePiece` leaves the room unchanged iff one of the guard
conditions fails (the game is over, the actor is not seated, it is not the
actor's turn, the symbol is invalid, the target is out of bounds or not
Empty, or the stock for that symbol is 0); otherwise the placement succeeds
and the actor's stock for the placed symbol decreases by exactly 1 (the `+ 1`
formulation shows it was positive before, so it never goes negative). -/
theorem c6_place_reject_iff (room : Room) (sid : Nat) (r c : Int) (symIn : Option Sym) :
    (placePiece room sid r c symIn = room ↔ ¬ placeOk room sid r c symIn) ∧
    (∀ playerIdx sy, room.gameOver = false → findSeat room sid = some playerIdx →
      playerIdx = room.turn → symIn = some sy → inBounds r c = true →
      getCell room.board r c = Cell.empty →
      (room.stock.getD playerIdx defaultStock).get sy ≠ 0 →
      ((placePiece room sid r c symIn).stock.getD playerIdx defaultStock).get sy + 1
        = (room.stock.getD playerIdx defaultStock).get sy) := by
  constructor
  · constructor
    · intro heq
      intro hok
      obtain ⟨hgo, playerIdx, hseat, hturn, sy, hsym, hb, hcell, hstock⟩ := hok
      have heq2 := placePiece_of_ok hgo hseat hturn hsym hb hcell hstock
      have hboard : (placePiece room sid r c symIn).board
          = (evalMove room playerIdx sy r c).board := by
        rw [heq2, placeFinish_board]
      have hcell2 : getCell (placePiece room sid r c symIn).board r c
          = Cell.piece playerIdx sy := by
        rw [hboard]
        exact evalMove_board_getCell hb
      rw [heq, hcell] at hcell2
      exact absurd hcell2 (by simp)
    · exact placePiece_of_not_ok
  · intro playerIdx sy hgo hseat hturn hsym hb hcell hstock
    have hlt : playerIdx < room.stock.length := by
      by_contra hge
      apply hstock
      rw [List.getD_eq_default]
      · cases sy <;> rfl
      · omega
    rw [placePiece_of_ok hgo hseat hturn hsym hb hcell hstock, placeFinish_stock,
      evalMove_stock, getD_set_self _ _ _ _ hlt, stock_get_dec]
    omega

/-- Witness for C6 at a concrete successful placement. -/
theorem c6_place_reject_iff_witness :
    ((placePiece roomSolo 7 0 0 (some Sym.R)).stock.getD 0 defaultStock).get Sym.R + 1
      = ((roomSolo.stock.getD 0 defaultStock).get Sym.R) :=
  (c6_place_reject_iff roomSolo 7 0 0 (some Sym.R)).2 0 Sym.R rfl (by decide) rfl rfl
    (by decide) (by decide) (by decide)

/-! ### Claim C10 -/

/-- Claim C10: when a seated player (who is not also a spectator) leaves via
`leaveRoom`, exactly that player's entries are removed from the players,
scores and stock lists (later seats shift down by one), the spectator list,
board and settings are untouched (already-placed pieces keep their numeric
owner index), `started` and `gameOver` are both reset to false, and if no
players remain the room is deleted (`none`) regardless of remaining
spectators. -/
theorem c10_leaveRoom_spec (room : Room) (sid : Nat) (pIdx : Nat)
    (hp : jsFindIndex (fun p => decide (p.sid = sid)) room.players = some pIdx)
    (hs : jsFindIndex (fun sp => decide (sp.sid = sid)) room.spectators = none) :
    (room.players.length = 1 → leaveRoom room sid = none) ∧
    (2 ≤ room.players.length → (leaveRoom room sid).isSome = true) ∧
    (∀ room2, leaveRoom room sid = some room2 →
      room2.players = room.players.eraseIdx pIdx ∧
      room2.scores = room.scores.eraseIdx pIdx ∧
      room2.stock = room.stock.eraseIdx pIdx ∧
      room2.spectators = room.spectators ∧
      room2.board = room.board ∧
      room2.settings = room.settings ∧
      room2.started = false ∧
      room2.gameOver = false) := by
  have hlt := jsFindIndex_lt_length _ _ _ hp
  have hlen : (room.players.eraseIdx pIdx).length = room.players.length - 1 := by
    rw [List.length_eraseIdx]
    simp [hlt]
  unfold leaveRoom
  rw [hs]
  dsimp only
  rw [hp]
  dsimp only
  unfold leaveRoomFinish
  refine ⟨?_, ?_, ?_⟩
  · intro hone
    rw [if_pos]
    simp only [hlen, hone]
  · intro htwo
    rw [if_neg]
    · rfl
    · simp only [hlen]
      omega
  · intro room2 hsome
    dsimp only at hsome
    by_cases hz : (room.players.eraseIdx pIdx).length = 0
    · rw [if_pos hz] at hsome
      cases hsome
    · rw [if_neg hz] at hsome
      cases hsome
      exact ⟨rfl, rfl, rfl, rfl, rfl, rfl, rfl, rfl⟩

/-- Witness for C10: the solo room is dismantled when its only player leaves;
the two-player room survives the first leave. -/
theorem c10_leaveRoom_spec_witness :
    leaveRoom roomSolo 7 = none ∧ (leaveRoom roomTwo 100).isSome = true :=
  ⟨(c10_leaveRoom_spec roomSolo 7 0 (by decide) rfl).1 rfl,
   (c10_leaveRoom_spec roomTwo 100 0 (by decide) rfl).2.1 (by decide)⟩

/-! ### Claim C4 -/

/-- The three-in-a-row fold adds exactly one point per direction whose run
reaches length 3, independently of how long the run is. -/
lemma triFold_count (b : Board) (pl : Nat) (sy : Sym) (r c : Int) (i : Nat) :
    ∀ (l : List (Int × Int)) (acc : Nat × List Highlight),
      (l.foldl (triStep b pl sy r c i) acc).1
        = acc.1 + (l.filter fun d =>
            decide (3 ≤ (lineThrough b pl sy r c d.1 d.2).length)).length
  | [], acc => by simp
  | d :: rest, acc => by
    simp only [List.foldl_cons, List.filter_cons]
    rw [triFold_count b pl sy r c i rest]
    by_cases hd : 3 ≤ (lineThrough b pl sy r c d.1 d.2).length
    · have hstep : (triStep b pl sy r c i acc d).1 = acc.1 + 1 := by
        simp only [triStep, if_pos hd]
      have hdec : decide (3 ≤ (lineThrough b pl sy r c d.1 d.2).length) = true := by
        simp [hd]
      rw [hstep, hdec]
      simp only [if_pos, List.length_cons]
      omega
    · have hstep : (triStep b pl sy r c i acc d).1 = acc.1 := by
        simp only [triStep, if_neg hd]
      have hdec : decide (3 ≤ (lineThrough b pl sy r c d.1 d.2).length) = false := by
        simp [hd]
      rw [hstep, hdec]
      simp

/-- Claim C4: for every placement whose cell holds the placed piece, the
three-in-a-row bonus equals the number of directions whose maximal run
through `(r, c)` has length ≥ 3 — exactly +1 per qualifying direction
regardless of run length — hence at most 4; and placing the third Rock of a
row on an otherwise empty board awards exactly +1 (not +3). -/
theorem c4_three_in_row_spec (b : Board) (r c : Int) (i pl : Nat) (sy : Sym)
    (h : getCell b r c = Cell.piece pl sy) :
    (scoreThreeInRow b r c i).1
      = (deltas.filter fun d =>
          decide (3 ≤ (lineThrough b pl sy r c d.1 d.2).length)).length ∧
    (scoreThreeInRow b r c i).1 ≤ 4 ∧
    (placePiece (placePiece (placePiece roomSolo 7 0 0 (some Sym.R))
        7 0 1 (some Sym.R)) 7 0 2 (some Sym.R)).scores = [1] := by
  have hc : (scoreThreeInRow b r c i).1
      = (deltas.filter fun d =>
          decide (3 ≤ (lineThrough b pl sy r c d.1 d.2).length)).length := by
    unfold scoreThreeInRow
    rw [h, triFold_count]
    simp
  refine ⟨hc, ?_, by decide⟩
  rw [hc]
  calc (deltas.filter fun d =>
          decide (3 ≤ (lineThrough b pl sy r c d.1 d.2).length)).length
      ≤ deltas.length := List.length_filter_le _ _
    _ = 4 := rfl

/-- Witness for C4 at the concrete flanking board. -/
theorem c4_three_in_row_spec_witness :
    (scoreThreeInRow boardFlank 0 2 0).1 ≤ 4 :=
  (c4_three_in_row_spec boardFlank 0 2 0 0 Sym.R (by decide)).2.1

/-! ### Claim C3 -/

/-- Every tile collected for a misplacement window is an in-bounds
non-Blocker piece read off the board at the window position. -/
lemma tilesOf_spec (b : Board) :
    ∀ (l : List (Int × Int)) (tiles : List ((Int × Int) × Nat × Sym)),
      tilesOf b l = some tiles →
      ∀ t ∈ tiles, inBounds t.1.1 t.1.2 = true ∧
        getCell b t.1.1 t.1.2 = Cell.piece t.2.1 t.2.2
  | [], tiles, h => by
    simp only [tilesOf] at h
    cases h
    intro t ht
    simp at ht
  | pos :: rest, tiles, h => by
    simp only [tilesOf] at h
    by_cases hb : inBounds pos.1 pos.2 = true
    · rw [if_neg (by simp [hb])] at h
      cases hcell : getCell b pos.1 pos.2 with
      | empty => rw [hcell] at h; cases h
      | blocker => rw [hcell] at h; cases h
      | piece p s =>
        rw [hcell] at h
        obtain ⟨ts, hts, hcons⟩ := Option.map_eq_some'.mp h
        subst hcons
        intro t ht
        rcases List.mem_cons.mp ht with h1 | h2
        · subst h1
          exact ⟨hb, hcell⟩
        · exact tilesOf_spec b rest ts hts t h2
    · rw [if_pos (by simp [hb])] at h
      cases h

/-- What a successful misplacement window award means: the window's tiles all
exist, one of them sits at `(r, c)`, and both other tiles carry the stronger
symbol and belong to the one awarded opponent, who is not the placer. -/
lemma windowAward_spec {b : Board} {r c : Int} {pl : Nat} {strong : Sym}
    {win : List (Int × Int)} {opp : Nat}
    (h : windowAward b r c pl strong win = some opp) :
    opp ≠ pl ∧ ∃ tiles, tilesOf b win = some tiles ∧
      (∃ t ∈ tiles, t.1.1 = r ∧ t.1.2 = c) ∧
      ∀ t ∈ tiles, ¬(t.1.1 = r ∧ t.1.2 = c) → t.2.2 = strong ∧ t.2.1 = opp := by
  unfold windowAward at h
  cases htiles : tilesOf b win with
  | none => rw [htiles] at h; cases h
  | some tiles =>
    rw [htiles] at h
    dsimp only at h
    by_cases hany : (tiles.any fun t => decide (t.1.1 = r) && decide (t.1.2 = c)) = true
    · rw [if_neg (by rw [hany]; simp)] at h
      by_cases hlen :
          (tiles.filter fun t => !(decide (t.1.1 = r) && decide (t.1.2 = c))).length = 2
      · have hd2 : decide ((tiles.filter fun t =>
            !(decide (t.1.1 = r) && decide (t.1.2 = c))).length = 2) = true :=
          decide_eq_true hlen
        rw [if_neg (by rw [hd2]; simp)] at h
        obtain ⟨u, v, huv⟩ := List.length_eq_two.mp hlen
        by_cases hif :
            (((tiles.filter fun t => !(decide (t.1.1 = r) && decide (t.1.2 = c))).all
                  fun t => decide (t.2.2 = strong))
                && (((tiles.filter fun t => !(decide (t.1.1 = r) && decide (t.1.2 = c))).all
                  fun t => !decide (t.2.1 = pl)))
              && ((((tiles.filter fun t => !(decide (t.1.1 = r) && decide (t.1.2 = c))).all
                  fun t => decide (t.2.2 = strong))
                && (((tiles.filter fun t => !(decide (t.1.1 = r) && decide (t.1.2 = c))).all
                  fun t => !decide (t.2.1 = pl))))
                && decide (((tiles.filter fun t =>
                    !(decide (t.1.1 = r) && decide (t.1.2 = c))).getD 0 ((0, 0), 0, Sym.R)).2.1
                  = ((tiles.filter fun t =>
                    !(decide (t.1.1 = r) && decide (t.1.2 = c))).getD 1 ((0, 0), 0, Sym.R)).2.1)))
              = true
        · rw [if_pos hif] at h
          have hopp : ((tiles.filter fun t =>
              !(decide (t.1.1 = r) && decide (t.1.2 = c))).getD 0 ((0, 0), 0, Sym.R)).2.1
              = opp := by
            exact Option.some.inj h
          simp only [Bool.and_eq_true, List.all_eq_true, decide_eq_true_eq,
            Bool.not_eq_true', decide_eq_false_iff_not] at hif
          obtain ⟨⟨hallsym, hallpl⟩, _, heq01⟩ := hif
          have hu0 : (tiles.filter fun t =>
              !(decide (t.1.1 = r) && decide (t.1.2 = c))).getD 0 ((0, 0), 0, Sym.R) = u := by
            rw [huv]; rfl
          have hv1 : (tiles.filter fun t =>
              !(decide (t.1.1 = r) && decide (t.1.2 = c))).getD 1 ((0, 0), 0, Sym.R) = v := by
            rw [huv]; rfl
          have humem : u ∈ (tiles.filter fun t =>
              !(decide (t.1.1 = r) && decide (t.1.2 = c))) := by
            rw [huv]; simp
          have hvmem : v ∈ (tiles.filter fun t =>
              !(decide (t.1.1 = r) && decide (t.1.2 = c))) := by
            rw [huv]; simp
          rw [hu0] at hopp
          rw [hu0, hv1] at heq01
          refine ⟨?_, tiles, rfl, ?_, ?_⟩
          · rw [← hopp]
            exact hallpl u humem
          · obtain ⟨t, ht, htr⟩ := List.any_eq_true.mp hany
            refine ⟨t, ht, ?_⟩
            simpa using htr
          · intro t ht hnot
            have hpred : (!(decide (t.1.1 = r) && decide (t.1.2 = c))) = true := by
              cases hd : (decide (t.1.1 = r) && decide (t.1.2 = c)) with
              | false => rfl
              | true =>
                exfalso
                apply hnot
                simpa using hd
            have htf : t ∈ (tiles.filter fun t =>
                !(decide (t.1.1 = r) && decide (t.1.2 = c))) :=
              List.mem_filter.mpr ⟨ht, hpred⟩
            have htuv : t = u ∨ t = v := by
              rw [huv] at htf
              simpa using htf
            rcases htuv with h1 | h1
            · subst h1
              exact ⟨hallsym t htf, hopp⟩
            · subst h1
              refine ⟨hallsym t htf, ?_⟩
              rw [← heq01]
              exact hopp
        · rw [if_neg hif] at h
          cases h
      · have hd2 : decide ((tiles.filter fun t =>
            !(decide (t.1.1 = r) && decide (t.1.2 = c))).length = 2) = false :=
          decide_eq_false hlen
        rw [if_pos (by rw [hd2]; rfl)] at h
        cases h
    · have hany2 : (tiles.any fun t => decide (t.1.1 = r) && decide (t.1.2 = c)) = false := by
        cases hx : tiles.any fun t => decide (t.1.1 = r) && decide (t.1.2 = c) with
        | false => rfl
        | true => exact absurd hx hany
      rw [if_pos (by rw [hany2]; rfl)] at h
      cases h

/-- The first qualifying window wins and later windows are not checked. -/
lemma firstWindowAward_spec (b : Board) (r c : Int) (pl : Nat) (strong : Sym) :
    ∀ (ws : List (List (Int × Int))) (opp : Nat) (win : List (Int × Int)),
      firstWindowAward b r c pl strong ws = some (opp, win) →
      ∃ pre post, ws = pre ++ win :: post ∧
        (∀ w ∈ pre, windowAward b r c pl strong w = none) ∧
        windowAward b r c pl strong win = some opp
  | [], opp, win, h => by simp [firstWindowAward] at h
  | w :: rest, opp, win, h => by
    simp only [firstWindowAward] at h
    cases hw : windowAward b r c pl strong w with
    | some o =>
      rw [hw] at h
      cases h
      exact ⟨[], rest, rfl, by simp, hw⟩
    | none =>
      rw [hw] at h
      obtain ⟨pre, post, heq, hpre, hwin⟩ :=
        firstWindowAward_spec b r c pl strong rest opp win h
      refine ⟨w :: pre, post, by rw [heq]; rfl, ?_, hwin⟩
      intro w2 hw2
      rcases List.mem_cons.mp hw2 with h1 | h1
      · subst h1
        exact hw
      · exact hpre w2 h1

/-- The misplacement fold adds at most one award per direction. -/
lemma misFold_len (b : Board) (r c : Int) (pl : Nat) (strong : Sym) :
    ∀ (l : List (Int × Int)) (acc : List (Nat × Nat) × List Highlight),
      (l.foldl (misStep b r c pl strong) acc).1.length ≤ acc.1.length + l.length
  | [], acc => by simp
  | d :: rest, acc => by
    simp only [List.foldl_cons]
    have hstep : (misStep b r c pl strong acc d).1.length ≤ acc.1.length + 1 := by
      unfold misStep
      cases firstWindowAward b r c pl strong (windowsAt r c d.1 d.2) with
      | none => simp
      | some aw =>
        cases aw
        simp
    have hrec := misFold_len b r c pl strong rest (misStep b r c pl strong acc d)
    simp only [List.length_cons]
    omega

/-- Every award the misplacement fold produces comes from the first
qualifying window of one of the scanned directions, worth one point. -/
lemma misFold_mem (b : Board) (r c : Int) (pl : Nat) (strong : Sym) :
    ∀ (l : List (Int × Int)) (acc : List (Nat × Nat) × List Highlight)
      (a : Nat × Nat), a ∈ (l.foldl (misStep b r c pl strong) acc).1 →
      a ∈ acc.1 ∨ ∃ d ∈ l, ∃ win,
        firstWindowAward b r c pl strong (windowsAt r c d.1 d.2) = some (a.1, win) ∧ a.2 = 1
  | [], acc, a, h => by
    left
    simpa using h
  | d :: rest, acc, a, h => by
    simp only [List.foldl_cons] at h
    rcases misFold_mem b r c pl strong rest (misStep b r c pl strong acc d) a h with
      hacc | ⟨d2, hd2, win, hwin, ha2⟩
    · revert hacc
      unfold misStep
      cases hfw : firstWindowAward b r c pl strong (windowsAt r c d.1 d.2) with
      | none =>
        intro hacc
        exact Or.inl hacc
      | some aw =>
        intro hacc
        rcases aw with ⟨opp, win⟩
        simp only at hacc
        rcases List.mem_append.mp hacc with h1 | h2
        · exact Or.inl h1
        · right
          have ha : a = (opp, 1) := by simpa using h2
          subst ha
          exact ⟨d, by simp, win, hfw, rfl⟩
    · exact Or.inr ⟨d2, by simp [hd2], win, hwin, ha2⟩

/-- Player 1's Papers at `(0, 0)` and `(0, 2)` flanking player 0's Rock
placed at `(0, 1)` — the canonical misplacement. -/
def boardMis : Board := fun x y =>
  if x = 0 ∧ y = 0 then Cell.piece 1 Sym.P
  else if x = 0 ∧ y = 2 then Cell.piece 1 Sym.P
  else if x = 0 ∧ y = 1 then Cell.piece 0 Sym.R
  else Cell.empty

/-- Claim C3: the misplacement bonus awards at most 4 points per placement
(at most 1 per direction); every award is worth exactly 1 point and goes to a
player other than the placer; and every award comes from the first
qualifying length-3 window of its direction (earlier windows do not qualify,
later windows are not checked), a window whose 3 cells are in bounds and hold
non-Blocker pieces, one of them at `(r, c)`, the other two carrying the
symbol that defeats the placed symbol and both owned by the one awarded
opponent. -/
theorem c3_misplacement_spec (b : Board) (r c : Int) (pl : Nat) (sy : Sym)
    (h : getCell b r c = Cell.piece pl sy) :
    (scoreMisplacement b r c).1.length ≤ 4 ∧
    (∀ a ∈ (scoreMisplacement b r c).1, a.2 = 1 ∧ a.1 ≠ pl) ∧
    (∀ a ∈ (scoreMisplacement b r c).1, ∃ d ∈ deltas, ∃ win pre post,
      windowsAt r c d.1 d.2 = pre ++ win :: post ∧
      (∀ w ∈ pre, windowAward b r c pl (weakTo sy) w = none) ∧
      windowAward b r c pl (weakTo sy) win = some a.1 ∧
      ∃ tiles, tilesOf b win = some tiles ∧
        (∀ t ∈ tiles, inBounds t.1.1 t.1.2 = true ∧
          getCell b t.1.1 t.1.2 = Cell.piece t.2.1 t.2.2) ∧
        (∃ t ∈ tiles, t.1.1 = r ∧ t.1.2 = c) ∧
        (∀ t ∈ tiles, ¬(t.1.1 = r ∧ t.1.2 = c) →
          t.2.2 = weakTo sy ∧ t.2.1 = a.1)) := by
  have hout : (scoreMisplacement b r c).1
      = (deltas.foldl (misStep b r c pl (weakTo sy)) ([], [])).1 := by
    unfold scoreMisplacement
    rw [h]
  refine ⟨?_, ?_, ?_⟩
  · rw [hout]
    have := misFold_len b r c pl (weakTo sy) deltas ([], [])
    simpa [deltas] using this
  · intro a ha
    rw [hout] at ha
    rcases misFold_mem b r c pl (weakTo sy) deltas ([], []) a ha with h0 | ⟨d, _, win, hfw, ha2⟩
    · simp at h0
    · obtain ⟨_, _, _, hwin⟩ := firstWindowAward_spec b r c pl (weakTo sy) _ _ _ hfw
      obtain ⟨hne, _⟩ := windowAward_spec hwin.2
      exact ⟨ha2, hne⟩
  · intro a ha
    rw [hout] at ha
    rcases misFold_mem b r c pl (weakTo sy) deltas ([], []) a ha with h0 | ⟨d, hd, win, hfw, _⟩
    · simp at h0
    · obtain ⟨pre, post, hdecomp, hpre, hwin⟩ :=
        firstWindowAward_spec b r c pl (weakTo sy) _ _ _ hfw
      obtain ⟨hne, tiles, htiles, hcontains, hflank⟩ := windowAward_spec hwin
      refine ⟨d, hd, win, pre, post, hdecomp, hpre, hwin, tiles, htiles, ?_, hcontains, ?_⟩
      · exact tilesOf_spec b win tiles htiles
      · intro t ht hnot
        exact hflank t ht hnot

/-- Witness for C3 at the canonical misplacement board. -/
theorem c3_misplacement_spec_witness :
    (scoreMisplacement boardMis 0 1).1.length ≤ 4 :=
  (c3_misplacement_spec boardMis 0 1 0 Sym.R (by decide)).1

/-! ### Claim C2 -/

/-- The end-of-stock scan fires exactly when some player's remaining stock
sums to zero over the three symbols. -/
lemma firstOutOfStock_isSome (st : List Stock) (n : Nat) :
    (firstOutOfStock st n).isSome = true ↔
      ∃ i, i < n ∧ (st.getD i defaultStock).total = 0 := by
  unfold firstOutOfStock
  rw [List.find?_isSome]
  simp [List.mem_range]

/-- `evaluateWinners` lists exactly the indices whose score equals the
maximum, each with its default label and its score. -/
lemma evaluateWinners_mem (s : List Nat) (i : Nat) (lb : String) (scv : Nat) :
    (i, lb, scv) ∈ evaluateWinners s ↔
      i < s.length ∧ s.getD i 0 = s.foldr Nat.max 0 ∧ lb = mkLabel i ∧ scv = s.getD i 0 := by
  unfold evaluateWinners
  simp only [List.mem_filterMap, List.mem_range]
  constructor
  · rintro ⟨j, hj, hcond⟩
    by_cases hc : s.getD j 0 = s.foldr Nat.max 0
    · rw [if_pos hc] at hcond
      simp only [Option.some.injEq, Prod.mk.injEq] at hcond
      obtain ⟨hji, hlb, hscv⟩ := hcond
      subst hji
      exact ⟨hj, hc, hlb.symm, hscv.symm⟩
    · rw [if_neg hc] at hcond
      cases hcond
  · rintro ⟨h1, h2, h3, h4⟩
    refine ⟨i, h1, ?_⟩
    rw [if_pos h2, h3, h4]

/-- Claim C2: after every successful placement the terminal conditions are
checked in fixed priority — (1) the placing player reaching `pointsToWin`
wins by name; (2) otherwise the first player whose total remaining stock over
the three symbols is 0 ends the game with the maximum-score players as
winners (ties enumerated); (3) otherwise a full board ends the game the same
way; (4) otherwise the turn advances by one modulo the player count.  On
every terminal transition `gameOver` is set, a result message is set, and the
turn does not advance.  The last two conjuncts pin down the winner set (the
indices of maximum score, with their labels and scores) and the stock-out
trigger. -/
theorem c2_terminal_priority (room : Room) (sid : Nat) (r c : Int) (sy : Sym)
    (playerIdx : Nat)
    (hgo : room.gameOver = false) (hseat : findSeat room sid = some playerIdx)
    (hturn : playerIdx = room.turn) (hb : inBounds r c = true)
    (hcell : getCell room.board r c = Cell.empty)
    (hstock : (room.stock.getD playerIdx defaultStock).get sy ≠ 0) :
    ((room.settings.pointsToWin
        ≤ (evalMove room playerIdx sy r c).scores.getD playerIdx 0) →
      (placePiece room sid r c (some sy)).gameOver = true ∧
      (placePiece room sid r c (some sy)).turn = room.turn ∧
      (placePiece room sid r c (some sy)).message
        = winByPointsMsg (playerLabel room playerIdx) room.settings.pointsToWin) ∧
    (¬(room.settings.pointsToWin
        ≤ (evalMove room playerIdx sy r c).scores.getD playerIdx 0) →
      ∀ i, firstOutOfStock (evalMove room playerIdx sy r c).stock room.players.length
        = some i →
      (placePiece room sid r c (some sy)).gameOver = true ∧
      (placePiece room sid r c (some sy)).turn = room.turn ∧
      (placePiece room sid r c (some sy)).message
        = tilesOutMsg (playerLabel room i)
            (evaluateWinners (evalMove room playerIdx sy r c).scores)) ∧
    (¬(room.settings.pointsToWin
        ≤ (evalMove room playerIdx sy r c).scores.getD playerIdx 0) →
      firstOutOfStock (evalMove room playerIdx sy r c).stock room.players.length = none →
      boardFull (evalMove room playerIdx sy r c).board = true →
      (placePiece room sid r c (some sy)).gameOver = true ∧
      (placePiece room sid r c (some sy)).turn = room.turn ∧
      (placePiece room sid r c (some sy)).message
        = boardFullMsg (evaluateWinners (evalMove room playerIdx sy r c).scores)) ∧
    (¬(room.settings.pointsToWin
        ≤ (evalMove room playerIdx sy r c).scores.getD playerIdx 0) →
      firstOutOfStock (evalMove room playerIdx sy r c).stock room.players.length = none →
      boardFull (evalMove room playerIdx sy r c).board = false →
      (placePiece room sid r c (some sy)).gameOver = false ∧
      (placePiece room sid r c (some sy)).turn
        = (room.turn + 1) % room.players.length ∧
      (placePiece room sid r c (some sy)).message = room.message) ∧
    ((firstOutOfStock (evalMove room playerIdx sy r c).stock room.players.length).isSome
        = true ↔
      ∃ i, i < room.players.length ∧
        ((evalMove room playerIdx sy r c).stock.getD i defaultStock).total = 0) ∧
    (∀ (s : List Nat) (i : Nat) (lb : String) (scv : Nat),
      (i, lb, scv) ∈ evaluateWinners s ↔
        i < s.length ∧ s.getD i 0 = s.foldr Nat.max 0 ∧
          lb = mkLabel i ∧ scv = s.getD i 0) := by
  have hP : placePiece room sid r c (some sy) = placeFinish room playerIdx sy r c :=
    placePiece_of_ok hgo hseat hturn rfl hb hcell hstock
  refine ⟨?_, ?_, ?_, ?_, firstOutOfStock_isSome _ _, evaluateWinners_mem⟩
  · intro hA
    rw [hP]
    unfold placeFinish
    dsimp only
    rw [if_pos hA]
    exact ⟨rfl, rfl, rfl⟩
  · intro hA i hF
    rw [hP]
    unfold placeFinish
    dsimp only
    rw [if_neg hA, hF]
    exact ⟨rfl, rfl, rfl⟩
  · intro hA hF hfull
    rw [hP]
    unfold placeFinish
    dsimp only
    rw [if_neg hA, hF]
    dsimp only
    rw [if_pos hfull]
    exact ⟨rfl, rfl, rfl⟩
  · intro hA hF hfull
    rw [hP]
    unfold placeFinish
    dsimp only
    rw [if_neg hA, hF]
    dsimp only
    rw [if_neg (by rw [hfull]; simp : ¬ boardFull (evalMove room playerIdx sy r c).board = true)]
    exact ⟨hgo, rfl, rfl⟩

/-- Witness for C2: a first placement in the solo room is non-terminal, so
the game is not over and the turn advances by one modulo the player count. -/
theorem c2_terminal_priority_witness :
    (placePiece roomSolo 7 0 0 (some Sym.R)).gameOver = false ∧
    (placePiece roomSolo 7 0 0 (some Sym.R)).turn
      = (roomSolo.turn + 1) % roomSolo.players.length :=
  ⟨((c2_terminal_priority roomSolo 7 0 0 Sym.R 0 rfl (by decide) rfl (by decide)
      (by decide) (by decide)).2.2.2.1 (by decide) (by decide) (by decide)).1,
   ((c2_terminal_priority roomSolo 7 0 0 Sym.R 0 rfl (by decide) rfl (by decide)
      (by decide) (by decide)).2.2.2.1 (by decide) (by decide) (by decide)).2.1⟩

end RicPacSoe
